import Mathlib

/-!
A verification development for the `hmmlearn/hmm.py` module (nelpy fork).

We embed, over exact rational arithmetic, the emission-model computations of
the five HMM variants defined in `hmm.py`: `GaussianHMM`, `MultinomialHMM`,
`GMMHMM`, `PoissonHMM`, `MarkedPoissonHMM` and `MultiprobeMarkedPoissonHMM`.
Machine floats are modelled as `ℚ` (so algebraic identities are exact),
minus infinity of a log-density as `Option ℚ` with `none` standing for
`-inf`, and the transcendental collaborators `np.log`, `np.exp` and
`scipy.special.logsumexp` as explicit function parameters, so that theorems
state which of their algebraic identities they rely on.
-/

namespace HmmSpec

/-- Elementwise addition of vectors, as numpy `a + b` / `a += b` on
1-d arrays (`List.zipWith` truncates to the shorter operand; in the code
all operands have matching shapes). -/
def vadd (a b : List ℚ) : List ℚ := List.zipWith (· + ·) a b

/-- Elementwise subtraction of vectors, numpy `a - b`. -/
def vsub (a b : List ℚ) : List ℚ := List.zipWith (· - ·) a b

/-- Elementwise addition of matrices, numpy `A + B` / `A += B`. -/
def madd (a b : List (List ℚ)) : List (List ℚ) := List.zipWith vadd a b

/-- Elementwise addition of rank-3 tensors. -/
def tadd (a b : List (List (List ℚ))) : List (List (List ℚ)) :=
  List.zipWith madd a b

/-- numpy `M.sum(axis=0)` for a rectangular 2-d array viewed as a list
of rows. -/
def sumAxis0 : List (List ℚ) → List ℚ
  | [] => []
  | [r] => r
  | r :: rs => vadd r (sumAxis0 rs)

/-- numpy `T.sum(axis=0)` for a rank-3 tensor viewed as a list of
matrices. -/
def sumMats : List (List (List ℚ)) → List (List ℚ)
  | [] => []
  | [m] => m
  | m :: ms => madd m (sumMats ms)

/-- Dot product of two vectors, numpy `np.dot(a, b)`. -/
def dot (a b : List ℚ) : ℚ := (List.zipWith (· * ·) a b).sum

/-- numpy `np.dot(P.T, X)` for `P : T×Z`, `X : T×F`, giving a `Z×F`
matrix whose `(z, f)` entry is `Σ_t P[t][z] * X[t][f]`. -/
def matTmul (P X : List (List ℚ)) : List (List ℚ) :=
  P.transpose.map (fun pcol => X.transpose.map (fun xcol => dot pcol xcol))

/-- numpy `np.einsum('ij,ik,il->jkl', P, X, X)`: the `(z, f, g)` entry is
`Σ_t P[t][z] * X[t][f] * X[t][g]`. -/
def einsumPXX (P X : List (List ℚ)) : List (List (List ℚ)) :=
  P.transpose.map (fun pcol =>
    X.transpose.map (fun xf =>
      X.transpose.map (fun xg => dot pcol (List.zipWith (· * ·) xf xg))))

/-- Three-list pointwise zip. -/
def zip3With (f : α → β → γ → δ) : List α → List β → List γ → List δ
  | a :: as, b :: bs, c :: cs => f a b c :: zip3With f as bs cs
  | _, _, _ => []

/-- Four-list pointwise zip. -/
def zip4With (f : α → β → γ → δ → ε) :
    List α → List β → List γ → List δ → List ε
  | a :: as, b :: bs, c :: cs, d :: ds => f a b c d :: zip4With f as bs cs ds
  | _, _, _, _ => []

theorem vadd_right_comm (x y z : List ℚ) :
    vadd (vadd x y) z = vadd (vadd x z) y := by
  induction x generalizing y z with
  | nil => simp [vadd]
  | cons a xs ih =>
    cases y with
    | nil => cases z <;> simp [vadd]
    | cons b ys =>
      cases z with
      | nil => simp [vadd]
      | cons c zs =>
        simp only [vadd, List.zipWith_cons_cons, List.cons.injEq]
        exact ⟨by ring, ih ys zs⟩

theorem madd_right_comm (x y z : List (List ℚ)) :
    madd (madd x y) z = madd (madd x z) y := by
  induction x generalizing y z with
  | nil => simp [madd]
  | cons a xs ih =>
    cases y with
    | nil => cases z <;> simp [madd]
    | cons b ys =>
      cases z with
      | nil => simp [madd]
      | cons c zs =>
        simp only [madd, List.zipWith_cons_cons, List.cons.injEq]
        exact ⟨vadd_right_comm a b c, ih ys zs⟩

theorem tadd_right_comm (x y z : List (List (List ℚ))) :
    tadd (tadd x y) z = tadd (tadd x z) y := by
  induction x generalizing y z with
  | nil => simp [tadd]
  | cons a xs ih =>
    cases y with
    | nil => cases z <;> simp [tadd]
    | cons b ys =>
      cases z with
      | nil => simp [tadd]
      | cons c zs =>
        simp only [tadd, List.zipWith_cons_cons, List.cons.injEq]
        exact ⟨madd_right_comm a b c, ih ys zs⟩

/-! ## MultinomialHMM input validation (`hmm.py` lines 396-399, 452-468) -/

/-- Embedding of `MultinomialHMM._check_input_symbols`.  `X` stands for the
concatenation `np.concatenate(X)` of the batch, with the numpy integer-dtype
test reflected by the domain `List ℤ`.  The code rejects when there is
exactly one symbol (`len(symbols) == 1`), when any symbol is negative, and
otherwise tests `u[0] == 0 and u[-1] == len(u) - 1` on the sorted unique
array `u = np.unique(symbols)`; `Finset.min`, `Finset.max` and
`Finset.card` of `X.toFinset` embed `u[0]`, `u[-1]` and `len(u)`. -/
def check_input_symbols (X : List ℤ) : Bool :=
  if X.length = 1 then false
  else if X.any (fun s => decide (s < 0)) then false
  else decide (X.toFinset.min = ((0 : ℤ) : WithBot ℤ))
    && decide (X.toFinset.max = (((X.toFinset.card : ℤ) - 1 : ℤ) : WithTop ℤ))

/-- Embedding of the validation step of `MultinomialHMM._init`: `fit` raises
`ValueError` when `_check_input_symbols` fails. -/
def multinomial_init (X : List ℤ) : Except String Unit :=
  if check_input_symbols X then Except.ok ()
  else Except.error "expected a sample from a Multinomial distribution."

/-- The spec-side acceptance predicate: the symbols are non-negative
integers forming the contiguous range `{0, …, V-1}` with every value
present, where `V` is the number of distinct symbols. -/
def contiguousFromZero (X : List ℤ) : Prop :=
  X.toFinset = Finset.Icc 0 ((X.toFinset.card : ℤ) - 1)

instance : DecidablePred contiguousFromZero := fun X => by
  unfold contiguousFromZero; infer_instance

/-- C2 counterexample: the one-element batch `[0]` satisfies the spec's
acceptance condition (its symbols are non-negative and form the full
contiguous range `{0}`), yet `_check_input_symbols` rejects it through its
`len(symbols) == 1` branch and `_init` raises, so the claimed
"if and only if" is false. -/
theorem multinomial_singleton_rejected_cex :
    contiguousFromZero [0] ∧ check_input_symbols [0] = false ∧
      multinomial_init [0] =
        Except.error "expected a sample from a Multinomial distribution." := by
  have h : check_input_symbols [0] = false := by decide
  exact ⟨by decide, h, by simp [multinomial_init, h]⟩

/-- C2 (amended): `MultinomialHMM._check_input_symbols` accepts a batch if
and only if it contains **at least two** symbols and its concatenated
symbols are non-negative integers forming the contiguous range `{0,…,V-1}`
with every value present; the literal `[0,0,2,1,3,1,1]` is accepted,
`[0,0,3,5,10]` is rejected, and initialization raises on a rejected
batch. -/
theorem multinomial_check_input_symbols_iff :
    (∀ X : List ℤ, check_input_symbols X = true ↔
        X ≠ [] ∧ X.length ≠ 1 ∧ contiguousFromZero X) ∧
      check_input_symbols [0, 0, 2, 1, 3, 1, 1] = true ∧
      check_input_symbols [0, 0, 3, 5, 10] = false ∧
      multinomial_init [0, 0, 3, 5, 10] =
        Except.error "expected a sample from a Multinomial distribution." := by
  have hrej : check_input_symbols [0, 0, 3, 5, 10] = false := by decide
  refine ⟨?_, by decide, hrej, by simp [multinomial_init, hrej]⟩
  intro X
  constructor
  · intro h
    unfold check_input_symbols at h
    split_ifs at h with hlen1 hneg
    simp only [Bool.and_eq_true, decide_eq_true_eq] at h
    obtain ⟨hmin, hmax⟩ := h
    have hne : X ≠ [] := by
      intro h0
      subst h0
      simp [Finset.min_empty] at hmin
    have hS : X.toFinset.Nonempty := by
      cases X with
      | nil => exact absurd rfl hne
      | cons a xs => exact ⟨a, by simp⟩
    have hmin' : X.toFinset.min' hS = 0 := by
      have hc := Finset.coe_min' hS
      rw [hmin] at hc
      exact WithBot.coe_injective hc
    have hmax' : X.toFinset.max' hS = (X.toFinset.card : ℤ) - 1 := by
      have hc := Finset.coe_max' hS
      rw [hmax] at hc
      exact WithTop.coe_injective hc
    have hsub : X.toFinset ⊆ Finset.Icc 0 ((X.toFinset.card : ℤ) - 1) := by
      intro x hx
      rw [Finset.mem_Icc]
      exact ⟨hmin' ▸ Finset.min'_le _ x hx, hmax' ▸ Finset.le_max' _ x hx⟩
    have hcard :
        (Finset.Icc (0 : ℤ) ((X.toFinset.card : ℤ) - 1)).card ≤
          X.toFinset.card := by
      rw [Int.card_Icc]
      omega
    exact ⟨hne, hlen1, Finset.eq_of_subset_of_card_le hsub hcard⟩
  · rintro ⟨hne, hlen1, hcontig⟩
    have hS : X.toFinset.Nonempty := by
      cases X with
      | nil => exact absurd rfl hne
      | cons a xs => exact ⟨a, by simp⟩
    have hcardpos : 1 ≤ X.toFinset.card := Finset.card_pos.mpr hS
    have hminle : ∀ x ∈ X.toFinset, (0 : ℤ) ≤ x := by
      intro x hx
      rw [contiguousFromZero] at hcontig
      rw [hcontig, Finset.mem_Icc] at hx
      exact hx.1
    have hmaxge : ∀ x ∈ X.toFinset, x ≤ (X.toFinset.card : ℤ) - 1 := by
      intro x hx
      rw [contiguousFromZero] at hcontig
      rw [hcontig, Finset.mem_Icc] at hx
      exact hx.2
    have h0mem : (0 : ℤ) ∈ X.toFinset := by
      rw [contiguousFromZero] at hcontig
      rw [hcontig, Finset.mem_Icc]
      constructor
      · exact le_refl 0
      · have : (1 : ℤ) ≤ (X.toFinset.card : ℤ) := by exact_mod_cast hcardpos
        omega
    have hMmem : (X.toFinset.card : ℤ) - 1 ∈ X.toFinset := by
      rw [contiguousFromZero] at hcontig
      nth_rewrite 1 [hcontig]
      rw [Finset.mem_Icc]
      have : (1 : ℤ) ≤ (X.toFinset.card : ℤ) := by exact_mod_cast hcardpos
      omega
    have hminEq : X.toFinset.min = ((0 : ℤ) : WithBot ℤ) := by
      rw [← Finset.coe_min' hS]
      have h1 : X.toFinset.min' hS = 0 :=
        le_antisymm (Finset.min'_le _ 0 h0mem) (Finset.le_min' _ _ _ hminle)
      exact congrArg _ h1
    have hmaxEq :
        X.toFinset.max = (((X.toFinset.card : ℤ) - 1 : ℤ) : WithTop ℤ) := by
      rw [← Finset.coe_max' hS]
      have h1 : X.toFinset.max' hS = (X.toFinset.card : ℤ) - 1 :=
        le_antisymm (Finset.max'_le _ _ _ hmaxge) (Finset.le_max' _ _ hMmem)
      exact congrArg _ h1
    have hnoneg : X.any (fun s => decide (s < 0)) = false := by
      simp only [List.any_eq_false, decide_eq_true_eq]
      intro x hx
      exact not_lt.mpr (hminle x (List.mem_toFinset.mpr hx))
    unfold check_input_symbols
    simp [hlen1, hnoneg, hminEq, hmaxEq]

/-! ## Blended, floored M-step updates (`PoissonHMM`, marked variants) -/

/-- The blended-and-floored update shared verbatim by
`PoissonHMM._do_mstep` (hmm.py lines 1124-1128),
`MarkedPoissonHMM._do_mstep` (lines 1538-1542) and
`MultiprobeMarkedPoissonHMM._do_mstep` (lines 1961-1965):
`new = (weight * prior + numer) / (weight + denom)` with the per-state
denominator `denom = stats['post'][:, np.newaxis]`, followed by
`np.where(new > 1e-3, new, 1e-3)`.  `1e-3 = 1/1000` exactly. -/
def blendFloor (weight prior : ℚ) (numer : List (List ℚ)) (post : List ℚ) :
    List (List ℚ) :=
  List.zipWith (fun row d =>
    row.map (fun x =>
      if (weight * prior + x) / (weight + d) > 1 / 1000 then
        (weight * prior + x) / (weight + d)
      else 1 / 1000)) numer post

theorem blendFloor_entry_ge (weight prior : ℚ) (numer : List (List ℚ))
    (post : List ℚ) :
    ∀ row ∈ blendFloor weight prior numer post, ∀ x ∈ row, 1 / 1000 ≤ x := by
  induction numer generalizing post with
  | nil => intro row h; simp [blendFloor] at h
  | cons r rs ih =>
    intro row hrow x hx
    cases post with
    | nil => simp [blendFloor] at hrow
    | cons d ds =>
      simp only [blendFloor, List.zipWith_cons_cons, List.mem_cons] at hrow
      rcases hrow with h | h
      · subst h
        simp only [List.mem_map] at hx
        obtain ⟨y, _, hy⟩ := hx
        subst hy
        split
        · next hgt => linarith
        · next => exact le_refl _
      · exact ih ds row h x hx

/-- Embedding of the `'m' in params` branch of `PoissonHMM._do_mstep`
(hmm.py lines 1118-1128): `means_` is the blended prior/empirical update
floored at `1e-3`.  (In numpy, a 0/0 division yields NaN, which
`np.where(means_ > 1e-3, ...)` also replaces by the floor; here Lean's
`x / 0 = 0` convention lands in the same floor branch.) -/
def poisson_mstep_means (means_weight means_prior : ℚ)
    (obsStats : List (List ℚ)) (post : List ℚ) : List (List ℚ) :=
  blendFloor means_weight means_prior obsStats post

/-- C4: after `PoissonHMM._do_mstep` with the means parameter group
enabled, every per-state per-feature rate in `means_` is at least the
positive floor `1e-3`; the blended update is replaced by the floor
wherever it does not exceed it, so no rate is zero or negative. -/
theorem poisson_mstep_means_floor (means_weight means_prior : ℚ)
    (obsStats : List (List ℚ)) (post : List ℚ) :
    ∀ row ∈ poisson_mstep_means means_weight means_prior obsStats post,
      ∀ x ∈ row, 1 / 1000 ≤ x :=
  blendFloor_entry_ge means_weight means_prior obsStats post

/-- Witness for C4 at the concrete input `means_weight = 0`,
`means_prior = 0`, `stats['obs'] = [[1]]`, `stats['post'] = [1]`: the
updated `means_` is `[[1]]` and the entry `1` is at least `1e-3`. -/
theorem poisson_mstep_means_floor_witness :
    [(1 : ℚ)] ∈ poisson_mstep_means 0 0 [[1]] [1] ∧ (1 : ℚ) ∈ [(1 : ℚ)] ∧
      (1 / 1000 : ℚ) ≤ 1 :=
  ⟨by norm_num [poisson_mstep_means, blendFloor], by simp,
    poisson_mstep_means_floor 0 0 [[1]] [1] [1]
      (by norm_num [poisson_mstep_means, blendFloor]) 1 (by simp)⟩

/-- The two rate-update modes of the marked-Poisson variants. -/
inductive RateMode
  | absolute
  | relative
deriving DecidableEq

/-- Embedding of the `'r' in params` branch of
`MarkedPoissonHMM._do_mstep` (hmm.py lines 1532-1544): the blended floored
update of `rate_`, then in `'relative'` mode each state's row is divided
by its sum (`(rate_.T / np.sum(rate_, axis=1)).T`); in `'absolute'` mode
nothing further happens. -/
def marked_mstep_rate (mode : RateMode) (rate_weight rate_prior : ℚ)
    (numer : List (List ℚ)) (post : List ℚ) : List (List ℚ) :=
  let rate := blendFloor rate_weight rate_prior numer post
  match mode with
  | .absolute => rate
  | .relative => rate.map (fun row => row.map (fun x => x / row.sum))

/-- Embedding of the `'r' in params` branch of
`MultiprobeMarkedPoissonHMM._do_mstep` (hmm.py lines 1955-1967), which is
textually identical to the single-probe update. -/
def mp_marked_mstep_rate (mode : RateMode) (rate_weight rate_prior : ℚ)
    (numer : List (List ℚ)) (post : List ℚ) : List (List ℚ) :=
  let rate := blendFloor rate_weight rate_prior numer post
  match mode with
  | .absolute => rate
  | .relative => rate.map (fun row => row.map (fun x => x / row.sum))

theorem sum_map_div (l : List ℚ) (S : ℚ) :
    (l.map (fun x => x / S)).sum = l.sum / S := by
  induction l with
  | nil => simp
  | cons a t ih => simp [ih, add_div]

theorem marked_mstep_rate_rel_row_sum (rate_weight rate_prior : ℚ)
    (numer : List (List ℚ)) (post : List ℚ) :
    ∀ row ∈ marked_mstep_rate RateMode.relative rate_weight rate_prior
        numer post, row ≠ [] → row.sum = 1 := by
  intro row hrow hne
  simp only [marked_mstep_rate, List.mem_map] at hrow
  obtain ⟨r0, hr0, hmap⟩ := hrow
  subst hmap
  have hpos : 0 < r0.sum := by
    refine List.sum_pos r0 (fun x hx => ?_) ?_
    · have := blendFloor_entry_ge rate_weight rate_prior numer post r0 hr0 x hx
      linarith
    · intro h0
      subst h0
      exact hne rfl
  rw [sum_map_div, div_self (ne_of_gt hpos)]

theorem mp_marked_mstep_rate_eq (mode : RateMode) (rate_weight rate_prior : ℚ)
    (numer : List (List ℚ)) (post : List ℚ) :
    mp_marked_mstep_rate mode rate_weight rate_prior numer post =
      marked_mstep_rate mode rate_weight rate_prior numer post := by
  cases mode <;> rfl

/-- C5: for the marked-Poisson variants in relative rate mode, after every
M-step with the rate parameter group enabled, each state's (nonempty) rate
row of `rate_` sums to exactly 1 (the blended, floored update is
renormalized per state); in absolute mode no renormalization is applied
and entries are only floored at `1e-3` — e.g. the floored update `[[2,2]]`
is returned as-is, with row sum 4, not 1. -/
theorem marked_mstep_rate_normalization (rate_weight rate_prior : ℚ)
    (numer : List (List ℚ)) (post : List ℚ) :
    (∀ row ∈ marked_mstep_rate RateMode.relative rate_weight rate_prior
        numer post, row ≠ [] → row.sum = 1) ∧
    (∀ row ∈ mp_marked_mstep_rate RateMode.relative rate_weight rate_prior
        numer post, row ≠ [] → row.sum = 1) ∧
    (∀ row ∈ marked_mstep_rate RateMode.absolute rate_weight rate_prior
        numer post, ∀ x ∈ row, 1 / 1000 ≤ x) ∧
    (∀ row ∈ mp_marked_mstep_rate RateMode.absolute rate_weight rate_prior
        numer post, ∀ x ∈ row, 1 / 1000 ≤ x) ∧
    marked_mstep_rate RateMode.absolute 0 0 [[2, 2]] [1] = [[2, 2]] ∧
    mp_marked_mstep_rate RateMode.absolute 0 0 [[2, 2]] [1] = [[2, 2]] := by
  refine ⟨marked_mstep_rate_rel_row_sum rate_weight rate_prior numer post,
    ?_, ?_, ?_, by norm_num [marked_mstep_rate, blendFloor],
    by norm_num [mp_marked_mstep_rate, blendFloor]⟩
  · rw [mp_marked_mstep_rate_eq]
    exact marked_mstep_rate_rel_row_sum rate_weight rate_prior numer post
  · exact blendFloor_entry_ge rate_weight rate_prior numer post
  · rw [mp_marked_mstep_rate_eq]
    exact blendFloor_entry_ge rate_weight rate_prior numer post

/-- Witness for C5 at `rate_weight = 0`, `rate_prior = 0`,
`stats['numerator'] = [[1, 1]]`, `stats['post'] = [1]`: the relative-mode
rate row is `[1/2, 1/2]`, which sums to 1. -/
theorem marked_mstep_rate_normalization_witness :
    [(1 : ℚ) / 2, 1 / 2] ∈ marked_mstep_rate RateMode.relative 0 0 [[1, 1]] [1] ∧
      ([(1 : ℚ) / 2, 1 / 2] : List ℚ).sum = 1 :=
  ⟨by norm_num [marked_mstep_rate, blendFloor],
    (marked_mstep_rate_normalization 0 0 [[1, 1]] [1]).1
      [(1 : ℚ) / 2, 1 / 2] (by norm_num [marked_mstep_rate, blendFloor])
      (by simp)⟩

/-! ## GaussianHMM covariance M-step (`hmm.py` lines 257-308) -/

/-- The four covariance structurings of `COVARIANCE_TYPES` (line 38). -/
inductive CovType
  | spherical
  | diag
  | full
  | tied
deriving DecidableEq

/-- Embedding of the `'diag'`-style covariance update inside
`GaussianHMM._do_mstep` (lines 277-284):
`cv_num = means_weight * meandiff**2 + stats['obs**2'] - 2 * means_ * stats['obs'] + means_**2 * denom`,
`cv_den = max(covars_weight - 1, 0) + denom`, and
`covars = (covars_prior + cv_num) / np.maximum(cv_den, 1e-5)`, where
`meandiff = means_ - means_prior` and `denom = stats['post'][:, np.newaxis]`.
`means` is the value of `self.means_` at this point (already updated when
the means group is enabled). -/
def gaussianCovarsDiag (means_weight means_prior covars_prior covars_weight : ℚ)
    (means obsStats obs2Stats : List (List ℚ)) (post : List ℚ) :
    List (List ℚ) :=
  zip4With (fun mrow orow o2row d =>
    zip3With (fun mu o o2 =>
      (covars_prior +
          (means_weight * (mu - means_prior) ^ 2 + o2 - 2 * mu * o +
            mu ^ 2 * d)) /
        max (max (covars_weight - 1) 0 + d) (1 / 100000))
      mrow orow o2row) means obsStats obs2Stats post

/-- Embedding of the `('spherical', 'diag')` branch of
`GaussianHMM._do_mstep` (lines 277-288): the diag-style update, then for
`'spherical'` each state's row is replaced by
`np.tile(self._covars_.mean(1)[:, np.newaxis], (1, n_features))`, i.e. a
constant row holding the mean over features. -/
def gaussianCovarsUpdate (ct : CovType)
    (means_weight means_prior covars_prior covars_weight : ℚ)
    (means obsStats obs2Stats : List (List ℚ)) (post : List ℚ) :
    List (List ℚ) :=
  match ct with
  | CovType.spherical =>
    (gaussianCovarsDiag means_weight means_prior covars_prior covars_weight
        means obsStats obs2Stats post).map
      (fun row => List.replicate row.length (row.sum / (row.length : ℚ)))
  | _ =>
    gaussianCovarsDiag means_weight means_prior covars_prior covars_weight
      means obsStats obs2Stats post

/-- C7: after `GaussianHMM._do_mstep` with covariance updating enabled and
`covariance_type 'spherical'`, every entry of each state's stored
covariance row equals the arithmetic mean over features of the
`'diag'`-style covariance update for that state — in particular all
feature entries of the row are equal. -/
theorem gaussian_spherical_covars_mean_of_diag
    (means_weight means_prior covars_prior covars_weight : ℚ)
    (means obsStats obs2Stats : List (List ℚ)) (post : List ℚ)
    (i : ℕ) (x : ℚ)
    (hx : x ∈ (gaussianCovarsUpdate CovType.spherical means_weight means_prior
        covars_prior covars_weight means obsStats obs2Stats post).getD i []) :
    x = ((gaussianCovarsUpdate CovType.diag means_weight means_prior
          covars_prior covars_weight means obsStats obs2Stats post).getD i
            []).sum /
        (((gaussianCovarsUpdate CovType.diag means_weight means_prior
          covars_prior covars_weight means obsStats obs2Stats post).getD i
            []).length : ℚ) := by
  simp only [gaussianCovarsUpdate] at hx ⊢
  rw [List.getD_eq_getElem?_getD, List.getElem?_map] at hx
  rw [List.getD_eq_getElem?_getD]
  cases h : (gaussianCovarsDiag means_weight means_prior covars_prior
      covars_weight means obsStats obs2Stats post)[i]? with
  | none => rw [h] at hx; simp at hx
  | some r =>
    rw [h] at hx
    simp only [Option.map_some', Option.getD_some] at hx ⊢
    exact List.eq_of_mem_replicate hx

/-- Witness for C7 at `means_weight = 0`, `means_prior = 0`,
`covars_prior = 0`, `covars_weight = 1`, `means = [[1, 3]]`,
`stats['obs'] = [[0, 0]]`, `stats['obs**2'] = [[2, 2]]`,
`stats['post'] = [1]`: the diag update is `[[3, 11]]`, and the spherical
row entry `7` equals its mean `14/2`. -/
theorem gaussian_spherical_covars_mean_of_diag_witness :
    (7 : ℚ) ∈ (gaussianCovarsUpdate CovType.spherical 0 0 0 1 [[1, 3]]
        [[0, 0]] [[2, 2]] [1]).getD 0 [] ∧
      (7 : ℚ) = ((gaussianCovarsUpdate CovType.diag 0 0 0 1 [[1, 3]]
          [[0, 0]] [[2, 2]] [1]).getD 0 []).sum /
        (((gaussianCovarsUpdate CovType.diag 0 0 0 1 [[1, 3]]
          [[0, 0]] [[2, 2]] [1]).getD 0 []).length : ℚ) :=
  ⟨by norm_num [gaussianCovarsUpdate, gaussianCovarsDiag, zip3With, zip4With],
    gaussian_spherical_covars_mean_of_diag 0 0 0 1 [[1, 3]] [[0, 0]] [[2, 2]]
      [1] 0 7
      (by norm_num [gaussianCovarsUpdate, gaussianCovarsDiag, zip3With,
        zip4With])⟩

/-! ## Marked-Poisson responsibility computation
(`hmm.py` lines 39-40, 1475-1530 and 1895-1953).

The code works in the log domain with `np.log`, `np.exp` and
`scipy.special.logsumexp`; these transcendental collaborators are
abstracted as the function parameters `LOG`, `EXP` and `LSE`, and the
theorems state exactly which of their algebraic identities they use. -/

/-- `MIN_LOGLIKELIHOOD` (hmm.py line 40). -/
def MIN_LOGLIKELIHOOD : ℚ := -700

/-- Embedding of the clamp `f[f < MIN_LOGLIKELIHOOD] = MIN_LOGLIKELIHOOD`
(lines 1510-1511 and 1933-1934).  A raw per-mark log-density is an
extended value: `none` models the `-inf` produced when `mvn.logpdf`
underflows to zero probability; the clamp always yields a finite
rational. -/
def clampLL (f : Option ℚ) : ℚ :=
  match f with
  | none => MIN_LOGLIKELIHOOD
  | some x => if x < MIN_LOGLIKELIHOOD then MIN_LOGLIKELIHOOD else x

/-- The clamped log-density matrix `logF` (shape `(N, K)`) built inside
`MarkedPoissonHMM._accumulate_sufficient_statistics` (lines 1506-1512):
`rawld mk nn` stands for `multivariate_normal(mean=cluster_means[nn],
cov=covars[nn]).logpdf(mk)`. -/
def markedLogF (rawld : List ℚ → Nat → Option ℚ) (marks : List (List ℚ))
    (N : Nat) : List (List ℚ) :=
  (List.range N).map (fun nn => marks.map (fun mk => clampLL (rawld mk nn)))

/-- C6: every per-mark per-cluster log-density entering the marked-Poisson
accumulation is clamped from below at `MIN_LOGLIKELIHOOD = -700` before
use, so no `-inf` is propagated into the log-sum-exp denominators or the
expected-rate results (which, being built from the rational entries of
`markedLogF`, stay finite by construction). -/
theorem marked_clamped_loglik_bounded (rawld : List ℚ → Nat → Option ℚ)
    (marks : List (List ℚ)) (N : Nat) :
    (∀ row ∈ markedLogF rawld marks N, ∀ x ∈ row, MIN_LOGLIKELIHOOD ≤ x) ∧
      MIN_LOGLIKELIHOOD = -700 := by
  refine ⟨?_, rfl⟩
  intro row hrow x hx
  simp only [markedLogF, List.mem_map] at hrow
  obtain ⟨nn, _, hr⟩ := hrow
  subst hr
  simp only [List.mem_map] at hx
  obtain ⟨mk, _, he⟩ := hx
  subst he
  unfold clampLL
  match rawld mk nn with
  | none => exact le_refl _
  | some y =>
    simp only []
    split
    · exact le_refl _
    · next h => exact le_of_not_lt h

/-- Witness for C6 at `rawld = fun mk nn => none` (every raw density is
`-inf`), one mark `[[0]]` and `N = 1`: the clamped matrix is `[[-700]]`
and its entry is at least the floor. -/
theorem marked_clamped_loglik_bounded_witness :
    [(-700 : ℚ)] ∈ markedLogF (fun _ _ => none) [[0]] 1 ∧
      MIN_LOGLIKELIHOOD ≤ (-700 : ℚ) :=
  ⟨by simp [markedLogF, clampLL, MIN_LOGLIKELIHOOD],
    (marked_clamped_loglik_bounded (fun _ _ => none) [[0]] 1).1
      [(-700 : ℚ)] (by simp [markedLogF, clampLL, MIN_LOGLIKELIHOOD]) (-700) (by simp)⟩

/-- `logmnp[nn][kk] = logF[nn][kk] + np.log(r[nn]) - den[kk]` where
`den = logsumexp((logF.T + np.log(r)).T, axis=0)` (lines 1514-1519):
the log of the per-mark cluster-responsibility of cluster `nn` at mark
`kk`. -/
def markedLogMnp (LOG : ℚ → ℚ) (LSE : List ℚ → ℚ) (logF : List (List ℚ))
    (r : List ℚ) (nn kk : Nat) : ℚ :=
  (logF.getD nn []).getD kk 0 + LOG (r.getD nn 0) -
    LSE ((List.range logF.length).map
      (fun i => (logF.getD i []).getD kk 0 + LOG (r.getD i 0)))

/-- The per-mark per-cluster responsibility `exp(logmnp[nn][kk])`. -/
def markedResp (LOG : ℚ → ℚ) (LSE : List ℚ → ℚ) (EXP : ℚ → ℚ)
    (logF : List (List ℚ)) (r : List ℚ) (nn kk : Nat) : ℚ :=
  EXP (markedLogMnp LOG LSE logF r nn kk)

/-- Relative-mode per-timestep expected rate of cluster `nn`
(line 1522): `exp(logsumexp(logmnp, axis=1) - log(K))`. -/
def markedExpectedRateRel (LOG : ℚ → ℚ) (LSE : List ℚ → ℚ) (EXP : ℚ → ℚ)
    (logF : List (List ℚ)) (r : List ℚ) (K nn : Nat) : ℚ :=
  EXP (LSE ((List.range K).map (fun kk => markedLogMnp LOG LSE logF r nn kk))
    - LOG (K : ℚ))

/-- Absolute-mode per-timestep expected rate of cluster `nn`
(line 1524): `exp(logsumexp(logmnp, axis=1))`. -/
def markedExpectedRateAbs (LOG : ℚ → ℚ) (LSE : List ℚ → ℚ) (EXP : ℚ → ℚ)
    (logF : List (List ℚ)) (r : List ℚ) (K nn : Nat) : ℚ :=
  EXP (LSE ((List.range K).map (fun kk => markedLogMnp LOG LSE logF r nn kk)))

/-- C8: for a timestep with exactly one mark and two clusters with equal
rates `ρ` and equal clamped log-densities `a`, the per-cluster
responsibilities are each exactly `1/2`, and in relative mode the
per-timestep expected rates are `1/2` each.  The hypotheses are the
identities of the real log/exp/logsumexp used here:
`logsumexp [x, x] = x + log 2` (with `c = log 2`), `exp (-log 2) = 1/2`,
`logsumexp [x] = x` and `log 1 = 0`. -/
theorem marked_equal_density_responsibility_half
    (LOG : ℚ → ℚ) (LSE : List ℚ → ℚ) (EXP : ℚ → ℚ) (c a ρ : ℚ)
    (hLSE2 : ∀ x, LSE [x, x] = x + c) (hLSE1 : ∀ x, LSE [x] = x)
    (hLOG1 : LOG 1 = 0) (hEXP : EXP (-c) = 1 / 2) :
    markedResp LOG LSE EXP [[a], [a]] [ρ, ρ] 0 0 = 1 / 2 ∧
    markedResp LOG LSE EXP [[a], [a]] [ρ, ρ] 1 0 = 1 / 2 ∧
    markedExpectedRateRel LOG LSE EXP [[a], [a]] [ρ, ρ] 1 0 = 1 / 2 ∧
    markedExpectedRateRel LOG LSE EXP [[a], [a]] [ρ, ρ] 1 1 = 1 / 2 := by
  have h0 : markedLogMnp LOG LSE [[a], [a]] [ρ, ρ] 0 0 = -c := by
    simp only [markedLogMnp, List.length_cons, List.length_nil,
      List.range_succ, List.range_zero, List.nil_append, List.cons_append,
      List.map_cons, List.map_nil, List.getD_cons_zero, List.getD_cons_succ]
    rw [hLSE2]
    ring
  have h1 : markedLogMnp LOG LSE [[a], [a]] [ρ, ρ] 1 0 = -c := by
    simp only [markedLogMnp, List.length_cons, List.length_nil,
      List.range_succ, List.range_zero, List.nil_append, List.cons_append,
      List.map_cons, List.map_nil, List.getD_cons_zero, List.getD_cons_succ]
    rw [hLSE2]
    ring
  refine ⟨?_, ?_, ?_, ?_⟩
  · rw [markedResp, h0, hEXP]
  · rw [markedResp, h1, hEXP]
  · rw [markedExpectedRateRel]
    simp only [List.range_succ, List.range_zero, List.nil_append,
      List.map_cons, List.map_nil]
    rw [h0, hLSE1, Nat.cast_one, hLOG1, sub_zero, hEXP]
  · rw [markedExpectedRateRel]
    simp only [List.range_succ, List.range_zero, List.nil_append,
      List.map_cons, List.map_nil]
    rw [h1, hLSE1, Nat.cast_one, hLOG1, sub_zero, hEXP]

/-- Witness for C8: the hypotheses are discharged by the concrete
collaborators `LOG = 0`, `LSE = headD 0`, `EXP 0 = 1/2` with `c = 0`
(which satisfy the required identities), at `a = 3`, `ρ = 7`. -/
theorem marked_equal_density_responsibility_half_witness :
    markedResp (fun _ => 0) (fun l => l.headD 0)
        (fun q => if q = 0 then 1 / 2 else 0) [[3], [3]] [7, 7] 0 0 =
      1 / 2 ∧
    markedResp (fun _ => 0) (fun l => l.headD 0)
        (fun q => if q = 0 then 1 / 2 else 0) [[3], [3]] [7, 7] 1 0 =
      1 / 2 ∧
    markedExpectedRateRel (fun _ => 0) (fun l => l.headD 0)
        (fun q => if q = 0 then 1 / 2 else 0) [[3], [3]] [7, 7] 1 0 =
      1 / 2 ∧
    markedExpectedRateRel (fun _ => 0) (fun l => l.headD 0)
        (fun q => if q = 0 then 1 / 2 else 0) [[3], [3]] [7, 7] 1 1 =
      1 / 2 :=
  marked_equal_density_responsibility_half (fun _ => 0) (fun l => l.headD 0)
    (fun q => if q = 0 then 1 / 2 else 0) 0 3 7
    (fun x => by simp) (fun x => by simp) rfl (by norm_num)

/-- Embedding of the per-timestep expected-rate computation inside
`MarkedPoissonHMM._accumulate_sufficient_statistics` (lines 1503-1526):
for `K = len(marks) > 0` the responsibility-derived expected rates in the
selected rate mode; for an empty mark list the constant row
`np.ones(N) * self.min_rate`. -/
def markedTimestepRates (LOG : ℚ → ℚ) (LSE : List ℚ → ℚ) (EXP : ℚ → ℚ)
    (mode : RateMode) (min_rate : ℚ) (N : Nat)
    (rawld : List ℚ → Nat → Option ℚ) (r : List ℚ)
    (marks : List (List ℚ)) : List ℚ :=
  if 0 < marks.length then
    match mode with
    | .relative =>
      (List.range N).map (fun nn =>
        markedExpectedRateRel LOG LSE EXP (markedLogF rawld marks N) r
          marks.length nn)
    | .absolute =>
      (List.range N).map (fun nn =>
        markedExpectedRateAbs LOG LSE EXP (markedLogF rawld marks N) r
          marks.length nn)
  else List.replicate N min_rate

/-- The per-probe slice of the same computation inside
`MultiprobeMarkedPoissonHMM._accumulate_sufficient_statistics`
(lines 1926-1949), textually identical per probe:
`expected_rates[mm, cluster_ids[probe]]` receives the responsibility
values when the probe's timestep has marks and
`np.ones(N) * self.min_rate` otherwise. -/
def mpMarkedTimestepRates (LOG : ℚ → ℚ) (LSE : List ℚ → ℚ) (EXP : ℚ → ℚ)
    (mode : RateMode) (min_rate : ℚ) (N : Nat)
    (rawld : List ℚ → Nat → Option ℚ) (r : List ℚ)
    (marks : List (List ℚ)) : List ℚ :=
  if 0 < marks.length then
    match mode with
    | .relative =>
      (List.range N).map (fun nn =>
        markedExpectedRateRel LOG LSE EXP (markedLogF rawld marks N) r
          marks.length nn)
    | .absolute =>
      (List.range N).map (fun nn =>
        markedExpectedRateAbs LOG LSE EXP (markedLogF rawld marks N) r
          marks.length nn)
  else List.replicate N min_rate

/-- C10: in the marked-Poisson sufficient-statistics accumulation (both
the single-probe and the multiprobe variant), a timestep whose mark list
is empty contributes the constant expected rate `min_rate` for every
cluster, in both `'absolute'` and `'relative'` rate modes, instead of any
responsibility-derived value. -/
theorem marked_empty_timestep_min_rate (LOG : ℚ → ℚ) (LSE : List ℚ → ℚ)
    (EXP : ℚ → ℚ) (mode : RateMode) (min_rate : ℚ) (N : Nat)
    (rawld : List ℚ → Nat → Option ℚ) (r : List ℚ) :
    markedTimestepRates LOG LSE EXP mode min_rate N rawld r [] =
        List.replicate N min_rate ∧
      mpMarkedTimestepRates LOG LSE EXP mode min_rate N rawld r [] =
        List.replicate N min_rate := by
  constructor <;> (cases mode <;> rfl)

/-! ## MarkedPoissonHMM initialization gating
(`hmm.py` lines 1192-1220 and 1424-1467) -/

/-- The model fields read or written by `MarkedPoissonHMM._init`.
`rate_unset` models `not hasattr(self, "rate_")`. -/
structure MPState where
  already_initialized : Bool
  startprob_ : List ℚ
  transmat_ : List (List ℚ)
  cluster_means : List (List ℚ)
  cluster_covars : List (List (List ℚ))
  rate_ : List (List ℚ)
  rate_unset : Bool
deriving DecidableEq

/-- Modelled from the spec: the base-class `_BaseHMM._init` (module
`hmmlearn.base`, whose source is not under `src/`) "seeds
`startProb`/`transMat` uniformly" over the `n_components` states. -/
def baseInit (n_components : Nat) (s : MPState) : MPState :=
  { s with
    startprob_ := List.replicate n_components (1 / (n_components : ℚ)),
    transmat_ := List.replicate n_components
      (List.replicate n_components (1 / (n_components : ℚ))) }

/-- Embedding of `MarkedPoissonHMM._init` (lines 1424-1467): the whole
body is gated by the `_already_initialized` flag (initialized to `False`
in `__init__`, line 1220).  When the flag is unset the call runs the base
initialization, optionally refits the cluster densities through the
external GMM collaborator `fitGMM` (the `'c' in self.init_params`
branch), optionally re-seeds the rates with the externally drawn
`rateInit` (the `'r' in self.init_params or not hasattr(self, "rate_")`
branch), and finally sets the flag. -/
def markedPoissonInit (n_components : Nat) (initc initr : Bool)
    (fitGMM : List (List (List ℚ)) → List (List ℚ) × List (List (List ℚ)))
    (rateInit : List (List ℚ)) (s : MPState) (X : List (List (List ℚ))) :
    MPState :=
  if s.already_initialized then s
  else
    let s1 := baseInit n_components s
    let s2 := if initc then
        { s1 with
          cluster_means := (fitGMM X).1, cluster_covars := (fitGMM X).2 }
      else s1
    let s3 := if initr || s2.rate_unset then
        { s2 with rate_ := rateInit, rate_unset := false }
      else s2
    { s3 with already_initialized := true }

theorem markedPoissonInit_of_initialized (n_components : Nat)
    (initc initr : Bool)
    (fitGMM : List (List (List ℚ)) → List (List ℚ) × List (List (List ℚ)))
    (rateInit : List (List ℚ)) (s : MPState) (X : List (List (List ℚ)))
    (h : s.already_initialized = true) :
    markedPoissonInit n_components initc initr fitGMM rateInit s X = s := by
  unfold markedPoissonInit
  rw [if_pos h]

/-- C9: `MarkedPoissonHMM` initialization runs at most once per instance —
the first completed `_init` sets `_already_initialized`, every call on an
already-initialized model is a no-op for any input batch (leaving
`cluster_means`, `cluster_covars`, `rate_` and every other field
unchanged), and hence a second `_init` after a first one changes
nothing. -/
theorem marked_init_runs_once (n_components : Nat) (initc initr : Bool)
    (fitGMM : List (List (List ℚ)) → List (List ℚ) × List (List (List ℚ)))
    (rateInit : List (List ℚ)) (s : MPState) (X Y : List (List (List ℚ))) :
    (markedPoissonInit n_components initc initr fitGMM rateInit s
        X).already_initialized = true ∧
    markedPoissonInit n_components initc initr fitGMM rateInit
        (markedPoissonInit n_components initc initr fitGMM rateInit s X) Y =
      markedPoissonInit n_components initc initr fitGMM rateInit s X ∧
    (s.already_initialized = true →
      markedPoissonInit n_components initc initr fitGMM rateInit s X = s) := by
  have hflag : (markedPoissonInit n_components initc initr fitGMM rateInit s
      X).already_initialized = true := by
    by_cases h : s.already_initialized
    · rw [markedPoissonInit_of_initialized _ _ _ _ _ _ _ h]
      exact h
    · simp only [markedPoissonInit, Bool.not_eq_true] at h
      simp only [markedPoissonInit, h, Bool.false_eq_true, if_false]
  exact ⟨hflag,
    markedPoissonInit_of_initialized _ _ _ _ _ _ _ hflag,
    fun h => markedPoissonInit_of_initialized _ _ _ _ _ _ _ h⟩

/-- Witness for C9 at a concrete already-initialized state: both calls are
no-ops and the flag stays set. -/
theorem marked_init_runs_once_witness :
    (markedPoissonInit 1 true true (fun _ => ([[0]], [[[1]]])) [[1]]
        ⟨true, [1], [[1]], [[0]], [[[1]]], [[1]], false⟩
        [[[0]]]).already_initialized = true ∧
    markedPoissonInit 1 true true (fun _ => ([[0]], [[[1]]])) [[1]]
        (markedPoissonInit 1 true true (fun _ => ([[0]], [[[1]]])) [[1]]
          ⟨true, [1], [[1]], [[0]], [[[1]]], [[1]], false⟩ [[[0]]]) [[[0]]] =
      markedPoissonInit 1 true true (fun _ => ([[0]], [[[1]]])) [[1]]
        ⟨true, [1], [[1]], [[0]], [[[1]]], [[1]], false⟩ [[[0]]] ∧
    (MPState.already_initialized
        ⟨true, [1], [[1]], [[0]], [[[1]]], [[1]], false⟩ = true →
      markedPoissonInit 1 true true (fun _ => ([[0]], [[[1]]])) [[1]]
          ⟨true, [1], [[1]], [[0]], [[[1]]], [[1]], false⟩ [[[0]]] =
        ⟨true, [1], [[1]], [[0]], [[[1]]], [[1]], false⟩) :=
  marked_init_runs_once 1 true true (fun _ => ([[0]], [[[1]]])) [[1]]
    ⟨true, [1], [[1]], [[0]], [[[1]]], [[1]], false⟩ [[[0]]] [[[0]]]

/-! ## The per-family sampling contract
(`hmm.py` lines 223-227, 428-431, 790-807, 1084-1086, 1421-1422,
1821-1822) -/

/-- `np.cumsum`. -/
def cumsum (l : List ℚ) : List ℚ := (l.scanl (· + ·) 0).tail

/-- `np.argmax` of a boolean vector: index of the first `True` entry, or
`0` when every entry is `False`. -/
def argmaxBool (l : List Bool) : Nat := (l.findIdx? id).getD 0

/-- Embedding of `MultinomialHMM._generate_sample_from_state` (lines
428-431): `cdf = np.cumsum(self.emissionprob_[state, :])`, then
`[(cdf > random_state.rand()).argmax()]` with `u` the uniform draw. -/
def multinomial_generate_sample_from_state (emissionprob : List (List ℚ))
    (state : Nat) (u : ℚ) : List Nat :=
  [argmaxBool ((cumsum (emissionprob.getD state [])).map
    (fun c => decide (c > u)))]

/-- Embedding of `MarkedPoissonHMM._generate_sample_from_state` (lines
1421-1422): the body is `raise NotImplementedError`, for every state and
random generator. -/
def marked_generate_sample_from_state (_state : Nat) (_seed : Nat) :
    Except String (List (List ℚ)) :=
  Except.error "NotImplementedError"

/-- Embedding of `MultiprobeMarkedPoissonHMM._generate_sample_from_state`
(lines 1821-1822): the body is `raise NotImplementedError`. -/
def mp_marked_generate_sample_from_state (_state : Nat) (_seed : Nat) :
    Except String (List (List (List ℚ))) :=
  Except.error "NotImplementedError"

/-- C3 counterexample: the marked-Poisson sampler raises
`NotImplementedError` at state 0 instead of returning an observation, so
the claim that every emission-model variant implements the sampling
contract is false. -/
theorem marked_sampling_not_implemented_cex :
    marked_generate_sample_from_state 0 0 =
        Except.error "NotImplementedError" ∧
      mp_marked_generate_sample_from_state 0 0 =
        Except.error "NotImplementedError" :=
  ⟨rfl, rfl⟩

/-- C3 (amended): the Gaussian, Multinomial, GMM and Poisson variants
implement `sample(state, rng) -> one observation` (the Multinomial sampler
provably returns exactly one symbol for every emission matrix, state and
uniform draw), but the two marked-Poisson variants raise
`NotImplementedError` from `_generate_sample_from_state` for every state
and random generator, so ancestral sampling fails for them. -/
theorem sampling_contract_status :
    (∀ (emissionprob : List (List ℚ)) (state : Nat) (u : ℚ),
      (multinomial_generate_sample_from_state emissionprob state u).length =
        1) ∧
    (∀ state seed, marked_generate_sample_from_state state seed =
      Except.error "NotImplementedError") ∧
    (∀ state seed, mp_marked_generate_sample_from_state state seed =
      Except.error "NotImplementedError") :=
  ⟨fun _ _ _ => rfl, fun _ _ => rfl, fun _ _ => rfl⟩

/-! ## Sufficient-statistics accumulation across the sequences of a batch
(`hmm.py` lines 229-255, 433-444, 831-869, 1103-1116, 1469-1530,
1879-1953) -/

/-- One timestep of the `MultinomialHMM` loop
`stats['obs'][:, symbol] += posteriors[t]` (line 444), acting on one row:
add `p` at position `v`. -/
def setAdd : List ℚ → Nat → ℚ → List ℚ
  | [], _, _ => []
  | a :: rest, 0, p => (a + p) :: rest
  | a :: rest, Nat.succ v, p => a :: setAdd rest v p

/-- `stats['obs'][:, symbol] += posteriors[t]`: column `v` of the `Z×V`
matrix `M` receives the posterior row `p` (one entry per state). -/
def addAtCol (M : List (List ℚ)) (v : Nat) (p : List ℚ) : List (List ℚ) :=
  List.zipWith (fun row pz => setAdd row v pz) M p

/-- The loop `for t, symbol in enumerate(np.concatenate(X)):` over one
sequence (lines 443-444). -/
def multAccSeq : List (List ℚ) → List Nat → List (List ℚ) → List (List ℚ)
  | M, v :: xs, prow :: ps => multAccSeq (addAtCol M v prow) xs ps
  | M, _, _ => M

/-- Embedding of the `'e' in self.params` branch of
`MultinomialHMM._accumulate_sufficient_statistics` (lines 438-444). -/
def multinomialAccumulate (paramsE : Bool) (M : List (List ℚ)) (X : List Nat)
    (P : List (List ℚ)) : List (List ℚ) :=
  if paramsE then multAccSeq M X P else M

theorem setAdd_comm (row : List ℚ) (v w : Nat) (p q : ℚ) :
    setAdd (setAdd row v p) w q = setAdd (setAdd row w q) v p := by
  induction row generalizing v w with
  | nil => rfl
  | cons a rest ih =>
    cases v with
    | zero =>
      cases w with
      | zero =>
        simp only [setAdd, List.cons.injEq, and_true]
        ring
      | succ w1 => simp [setAdd]
    | succ v1 =>
      cases w with
      | zero => simp [setAdd]
      | succ w1 =>
        simp only [setAdd, List.cons.injEq, true_and]
        exact ih v1 w1

theorem addAtCol_comm (M : List (List ℚ)) (v w : Nat) (p q : List ℚ) :
    addAtCol (addAtCol M v p) w q = addAtCol (addAtCol M w q) v p := by
  induction M generalizing p q with
  | nil => rfl
  | cons row rows ih =>
    cases p with
    | nil => cases q <;> simp [addAtCol]
    | cons ph pt =>
      cases q with
      | nil => simp [addAtCol]
      | cons qh qt =>
        simp only [addAtCol, List.zipWith_cons_cons, List.cons.injEq]
        exact ⟨setAdd_comm row v w ph qh, ih pt qt⟩

theorem multAccSeq_nil (M : List (List ℚ)) (P : List (List ℚ)) :
    multAccSeq M [] P = M := by
  cases P <;> rfl

theorem multAccSeq_nilP (M : List (List ℚ)) (X : List Nat) :
    multAccSeq M X [] = M := by
  cases X <;> rfl

theorem multAccSeq_addAtCol (X : List Nat) (P : List (List ℚ))
    (M : List (List ℚ)) (v : Nat) (p : List ℚ) :
    multAccSeq (addAtCol M v p) X P = addAtCol (multAccSeq M X P) v p := by
  induction X generalizing M P with
  | nil => rw [multAccSeq_nil, multAccSeq_nil]
  | cons x xs ih =>
    cases P with
    | nil => rw [multAccSeq_nilP, multAccSeq_nilP]
    | cons ph pt =>
      simp only [multAccSeq]
      rw [addAtCol_comm M v x p ph]
      exact ih pt (addAtCol M x ph)

theorem multAccSeq_comm (X1 : List Nat) (P1 : List (List ℚ))
    (M : List (List ℚ)) (X2 : List Nat) (P2 : List (List ℚ)) :
    multAccSeq (multAccSeq M X1 P1) X2 P2 =
      multAccSeq (multAccSeq M X2 P2) X1 P1 := by
  induction X1 generalizing M P1 with
  | nil => rw [multAccSeq_nil, multAccSeq_nil]
  | cons x xs ih =>
    cases P1 with
    | nil => rw [multAccSeq_nilP, multAccSeq_nilP]
    | cons ph pt =>
      simp only [multAccSeq]
      rw [ih pt (addAtCol M x ph), multAccSeq_addAtCol]

/-- The emission-specific accumulator of `PoissonHMM`
(`_initialize_sufficient_statistics`, lines 1103-1107). -/
structure PoissonStats where
  post : List ℚ
  obs : List (List ℚ)
deriving DecidableEq

/-- Embedding of the `'m' in self.params` branch of
`PoissonHMM._accumulate_sufficient_statistics` (lines 1109-1116):
`stats['post'] += posteriors.sum(axis=0)` and
`stats['obs'] += np.dot(posteriors.T, obs)`. -/
def poissonAccumulate (paramsM : Bool) (s : PoissonStats)
    (X P : List (List ℚ)) : PoissonStats :=
  if paramsM then
    { post := vadd s.post (sumAxis0 P), obs := madd s.obs (matTmul P X) }
  else s

theorem poissonAccumulate_comm (paramsM : Bool) (s : PoissonStats)
    (X1 P1 X2 P2 : List (List ℚ)) :
    poissonAccumulate paramsM (poissonAccumulate paramsM s X1 P1) X2 P2 =
      poissonAccumulate paramsM (poissonAccumulate paramsM s X2 P2) X1 P1 := by
  cases paramsM with
  | false => rfl
  | true =>
    simp only [poissonAccumulate, if_true]
    rw [vadd_right_comm, madd_right_comm]

/-- The emission-specific accumulator of `GaussianHMM`
(`_initialize_sufficient_statistics`, lines 229-237). -/
structure GaussianStats where
  post : List ℚ
  obs : List (List ℚ)
  obs2 : List (List ℚ)
  obsObsT : List (List (List ℚ))
deriving DecidableEq

/-- Embedding of `GaussianHMM._accumulate_sufficient_statistics`
(lines 239-255): the additive `post`/`obs` updates when `'m'` or `'c'` is
in `params`, then when `'c'` is in `params` the additive `obs**2` update
for `('spherical', 'diag')` or the additive `obs*obs.T` einsum update for
`('tied', 'full')`. -/
def gaussianAccumulate (pm pc : Bool) (ct : CovType) (s : GaussianStats)
    (X P : List (List ℚ)) : GaussianStats :=
  let s1 := if pm || pc then
      { s with post := vadd s.post (sumAxis0 P),
               obs := madd s.obs (matTmul P X) }
    else s
  if pc then
    match ct with
    | CovType.spherical | CovType.diag =>
      { s1 with obs2 := madd s1.obs2 (matTmul P (X.map (fun row => row.map (fun o => o ^ 2)))) }
    | CovType.tied | CovType.full =>
      { s1 with obsObsT := tadd s1.obsObsT (einsumPXX P X) }
  else s1

theorem gaussianAccumulate_comm (pm pc : Bool) (ct : CovType)
    (s : GaussianStats) (X1 P1 X2 P2 : List (List ℚ)) :
    gaussianAccumulate pm pc ct (gaussianAccumulate pm pc ct s X1 P1) X2 P2 =
      gaussianAccumulate pm pc ct (gaussianAccumulate pm pc ct s X2 P2) X1
        P1 := by
  cases pm <;> cases pc <;> cases ct <;>
    simp only [gaussianAccumulate, Bool.or_true, Bool.true_or, Bool.or_self,
      Bool.or_false, Bool.false_or, if_true, if_false, Bool.false_eq_true,
      ite_true, ite_false] <;>
    first
    | rfl
    | (congr 1 <;>
        first
        | rfl
        | apply vadd_right_comm
        | apply madd_right_comm
        | apply tadd_right_comm)

/-- The emission-specific accumulator of the marked-Poisson variants
(`_initialize_sufficient_statistics`, lines 1469-1473 and 1879-1883). -/
structure MarkedStats where
  post : List ℚ
  numerator : List (List ℚ)
deriving DecidableEq

/-- The per-sequence `numerator` contribution of
`MarkedPoissonHMM._accumulate_sufficient_statistics` (lines 1495-1528):
`numerator[zz, :] = np.dot(posteriors[:, zz].T, expected_rates)` with
`expected_rates` the per-timestep rows produced by
`markedTimestepRates` for state `zz`'s rate vector `R[zz]`. -/
def markedNumerator (LOG : ℚ → ℚ) (LSE : List ℚ → ℚ) (EXP : ℚ → ℚ)
    (mode : RateMode) (min_rate : ℚ) (N : Nat)
    (rawld : List ℚ → Nat → Option ℚ) (R : List (List ℚ))
    (obs : List (List (List ℚ))) (P : List (List ℚ)) : List (List ℚ) :=
  (List.range R.length).map (fun zz =>
    (List.range N).map (fun nn =>
      dot (P.map (fun prow => prow.getD zz 0))
        ((obs.map (fun marks =>
          markedTimestepRates LOG LSE EXP mode min_rate N rawld
            (R.getD zz []) marks)).map (fun er => er.getD nn 0))))

/-- Embedding of the `'r' in self.params` branch of
`MarkedPoissonHMM._accumulate_sufficient_statistics` (lines 1475-1530):
`stats['post'] += posteriors.sum(axis=0)` and
`stats['numerator'] += numerator`. -/
def markedAccumulate (paramsR : Bool) (LOG : ℚ → ℚ) (LSE : List ℚ → ℚ)
    (EXP : ℚ → ℚ) (mode : RateMode) (min_rate : ℚ) (N : Nat)
    (rawld : List ℚ → Nat → Option ℚ) (R : List (List ℚ)) (s : MarkedStats)
    (obs : List (List (List ℚ))) (P : List (List ℚ)) : MarkedStats :=
  if paramsR then
    { post := vadd s.post (sumAxis0 P),
      numerator := madd s.numerator
        (markedNumerator LOG LSE EXP mode min_rate N rawld R obs P) }
  else s

theorem markedAccumulate_comm (paramsR : Bool) (LOG : ℚ → ℚ)
    (LSE : List ℚ → ℚ) (EXP : ℚ → ℚ) (mode : RateMode) (min_rate : ℚ)
    (N : Nat) (rawld : List ℚ → Nat → Option ℚ) (R : List (List ℚ))
    (s : MarkedStats) (obs1 : List (List (List ℚ))) (P1 : List (List ℚ))
    (obs2 : List (List (List ℚ))) (P2 : List (List ℚ)) :
    markedAccumulate paramsR LOG LSE EXP mode min_rate N rawld R
        (markedAccumulate paramsR LOG LSE EXP mode min_rate N rawld R s obs1
          P1) obs2 P2 =
      markedAccumulate paramsR LOG LSE EXP mode min_rate N rawld R
        (markedAccumulate paramsR LOG LSE EXP mode min_rate N rawld R s obs2
          P2) obs1 P1 := by
  cases paramsR with
  | false => rfl
  | true =>
    simp only [markedAccumulate, if_true]
    rw [vadd_right_comm, madd_right_comm]

/-- The `GMMHMM` accumulator fields named by its
`_initialize_sufficient_statistics` (lines 831-839). -/
structure GMMStats where
  n_samples : Nat
  samples : List (List ℚ)
  post_comp_mix : List (List (List ℚ))
  post_mix_sum : List (List ℚ)
  post_sum : List ℚ
  centered : List (List (List (List ℚ)))
deriving DecidableEq

/-- The zero accumulator of `GMMHMM._initialize_sufficient_statistics`
(lines 831-839); the Python `None` placeholders for `samples`,
`post_comp_mix` and `centered` are modelled as empty lists. -/
def gmmInitStats (Z M : Nat) : GMMStats :=
  { n_samples := 0, samples := [], post_comp_mix := [],
    post_mix_sum := List.replicate Z (List.replicate M 0),
    post_sum := List.replicate Z 0, centered := [] }

/-- Embedding of `GMMHMM._accumulate_sufficient_statistics` (lines
841-869).  `EXP` abstracts `np.exp`, `logDens x zz mm` abstracts entry
`mm` of `_compute_log_weighted_gaussian_densities(X, zz)` at observation
row `x`, and `1 / 2 ^ 52` is `np.finfo(np.float).eps`.  Every one of the
six fields is **assigned** (`=`, not `+=`), so the accumulator passed in
(`_s`) is ignored:

* `stats['n_samples'] = n_samples`, `stats['samples'] = X`;
* `prob_mix = np.exp(log_denses) + eps`,
  `post_mix = prob_mix / prob_mix_sum[:, :, np.newaxis]`,
  `stats['post_comp_mix'] = post_comp[:, :, np.newaxis] * post_mix`;
* `stats['post_mix_sum'] = np.sum(post_comp_mix, axis=0)`;
* `stats['post_sum'] = np.sum(post_comp, axis=0)`;
* `stats['centered'] = X[:, np.newaxis, np.newaxis, :] - self.means_`. -/
def gmmAccumulate (EXP : ℚ → ℚ) (logDens : List ℚ → Nat → Nat → ℚ)
    (Z M : Nat) (means : List (List (List ℚ))) (_s : GMMStats)
    (X P : List (List ℚ)) : GMMStats :=
  let probMix := fun (x : List ℚ) (zz : Nat) =>
    (List.range M).map (fun mm => EXP (logDens x zz mm) + 1 / 2 ^ 52)
  let postCompMix := List.zipWith (fun x prow =>
      (List.range Z).map (fun zz =>
        (probMix x zz).map (fun pm =>
          prow.getD zz 0 * (pm / (probMix x zz).sum)))) X P
  { n_samples := X.length,
    samples := X,
    post_comp_mix := postCompMix,
    post_mix_sum := sumMats postCompMix,
    post_sum := sumAxis0 P,
    centered := X.map (fun x => means.map (fun mz => mz.map (vsub x))) }

/-- C1 counterexample: for GMMHMM, accumulating the two one-timestep
sequences `A = [[0]]` and `B = [[1]]` (with posterior `[[1]]` each) into
the zero-initialized accumulator in the two orders yields different
accumulator states — e.g. the `samples` field holds whichever sequence
came last — so accumulation is not order-independent. -/
theorem gmm_accumulate_order_dependent_cex :
    gmmAccumulate (fun _ => 1) (fun _ _ _ => 0) 1 1 [[[0]]]
        (gmmAccumulate (fun _ => 1) (fun _ _ _ => 0) 1 1 [[[0]]]
          (gmmInitStats 1 1) [[0]] [[1]]) [[1]] [[1]] ≠
      gmmAccumulate (fun _ => 1) (fun _ _ _ => 0) 1 1 [[[0]]]
        (gmmAccumulate (fun _ => 1) (fun _ _ _ => 0) 1 1 [[[0]]]
          (gmmInitStats 1 1) [[1]] [[1]]) [[0]] [[1]] := by
  intro h
  have hs := congrArg GMMStats.samples h
  simp only [gmmAccumulate] at hs
  norm_num at hs

/-- C1 (amended): accumulating a batch's per-sequence sufficient
statistics is order-independent for the additive accumulators of
`MultinomialHMM`, `PoissonHMM`, `GaussianHMM` (all parameter-flag and
covariance-type combinations) and the marked-Poisson variants, but NOT
for `GMMHMM`: its `_accumulate_sufficient_statistics` *assigns* the six
fields `n_samples`, `samples`, `post_comp_mix`, `post_mix_sum`,
`post_sum` and `centered` from the current sequence alone, so the state
the M-step reads is the statistics of the last accumulated sequence,
independent of whatever was accumulated before. -/
theorem accumulate_order_independence_status :
    (∀ (EXP : ℚ → ℚ) (logDens : List ℚ → Nat → Nat → ℚ) (Z M : Nat)
        (means : List (List (List ℚ))) (s s2 : GMMStats)
        (X P : List (List ℚ)),
      gmmAccumulate EXP logDens Z M means s X P =
        gmmAccumulate EXP logDens Z M means s2 X P) ∧
    (∀ (paramsE : Bool) (M : List (List ℚ)) (X1 : List Nat)
        (P1 : List (List ℚ)) (X2 : List Nat) (P2 : List (List ℚ)),
      multinomialAccumulate paramsE (multinomialAccumulate paramsE M X1 P1)
          X2 P2 =
        multinomialAccumulate paramsE (multinomialAccumulate paramsE M X2
          P2) X1 P1) ∧
    (∀ (paramsM : Bool) (s : PoissonStats) (X1 P1 X2 P2 : List (List ℚ)),
      poissonAccumulate paramsM (poissonAccumulate paramsM s X1 P1) X2 P2 =
        poissonAccumulate paramsM (poissonAccumulate paramsM s X2 P2) X1
          P1) ∧
    (∀ (pm pc : Bool) (ct : CovType) (s : GaussianStats)
        (X1 P1 X2 P2 : List (List ℚ)),
      gaussianAccumulate pm pc ct (gaussianAccumulate pm pc ct s X1 P1) X2
          P2 =
        gaussianAccumulate pm pc ct (gaussianAccumulate pm pc ct s X2 P2)
          X1 P1) ∧
    (∀ (paramsR : Bool) (LOG : ℚ → ℚ) (LSE : List ℚ → ℚ) (EXP : ℚ → ℚ)
        (mode : RateMode) (min_rate : ℚ) (N : Nat)
        (rawld : List ℚ → Nat → Option ℚ) (R : List (List ℚ))
        (s : MarkedStats) (obs1 : List (List (List ℚ)))
        (P1 : List (List ℚ)) (obs2 : List (List (List ℚ)))
        (P2 : List (List ℚ)),
      markedAccumulate paramsR LOG LSE EXP mode min_rate N rawld R
          (markedAccumulate paramsR LOG LSE EXP mode min_rate N rawld R s
            obs1 P1) obs2 P2 =
        markedAccumulate paramsR LOG LSE EXP mode min_rate N rawld R
          (markedAccumulate paramsR LOG LSE EXP mode min_rate N rawld R s
            obs2 P2) obs1 P1) :=
  ⟨fun _ _ _ _ _ _ _ _ _ => rfl,
    fun paramsE M X1 P1 X2 P2 => by
      cases paramsE with
      | false => rfl
      | true =>
        simp only [multinomialAccumulate, if_true]
        exact multAccSeq_comm X1 P1 M X2 P2,
    poissonAccumulate_comm,
    gaussianAccumulate_comm,
    markedAccumulate_comm⟩

end HmmSpec
